import Mathlib

/-!
Verification of the ProofSight protocol core against its specification.

The TypeScript SDK (crypto.ts, merkle.ts, sdk.ts, circuits/proof-generator.ts)
and the circom circuits (withdrawal.circom, position_update.circom) are
shallowly embedded below.  The external Poseidon permutation from circomlibjs
is not part of the repository, so every hashing definition is parameterized by
a hash function (`List ℕ → ℕ` for the variadic JavaScript helper,
`ℕ → ℕ → ℕ` for the binary Merkle node hash); field elements are modeled as
natural numbers, and circuit signals as integers where subtraction occurs.
-/

namespace ProofSight

/-- Model of a JavaScript value accepted by `CryptoUtils.poseidonHash`
(crypto.ts lines 80-108): a number, a BN instance, or a string. -/
inductive JsVal where
  | num : ℕ → JsVal
  | bn : ℕ → JsVal
  | str : String → JsVal

/-- Value of one hexadecimal digit character, as used by JavaScript
`BigInt` parsing of a `0x`-prefixed literal. -/
def hexDigitVal? (c : Char) : Option ℕ :=
  if '0' ≤ c ∧ c ≤ '9' then some (c.toNat - '0'.toNat)
  else if 'a' ≤ c ∧ c ≤ 'f' then some (c.toNat - 'a'.toNat + 10)
  else if 'A' ≤ c ∧ c ≤ 'F' then some (c.toNat - 'A'.toNat + 10)
  else none

/-- One step of hexadecimal accumulation; a non-hex character poisons the
accumulator. -/
def hexStep (acc : Option ℕ) (c : Char) : Option ℕ :=
  match acc with
  | none => none
  | some v =>
    match hexDigitVal? c with
    | none => none
    | some d => some (16 * v + d)

/-- Value of a nonempty all-hex character list; `none` when the list is
empty or contains a non-hex character — exactly the cases in which
JavaScript `BigInt ("0x" + s)` throws (sign and whitespace forms never
arise in the modeled flows). -/
def hexVal? (cs : List Char) : Option ℕ :=
  match cs with
  | [] => none
  | _ :: _ => cs.foldl hexStep (some 0)

/-- Value of one decimal digit character. -/
def decDigitVal? (c : Char) : Option ℕ :=
  if c.isDigit then some (c.toNat - '0'.toNat) else none

/-- One step of decimal accumulation; a non-digit character poisons the
accumulator. -/
def decStep (acc : Option ℕ) (c : Char) : Option ℕ :=
  match acc with
  | none => none
  | some v =>
    match decDigitVal? c with
    | none => none
    | some d => some (10 * v + d)

/-- Value of an all-decimal character list; JavaScript `BigInt ""` is `0`,
and a non-digit character makes `BigInt` throw. -/
def decVal? (cs : List Char) : Option ℕ :=
  cs.foldl decStep (some 0)

/-- Maximal-hex-prefix value used by the `parseInt (input, 16) || 0`
fallback for a malformed `0x` string (crypto.ts line 92); `parseInt`
keeps the digits before the first invalid character and `NaN || 0` is 0.
The float rounding of `parseInt` on overlong prefixes is not modeled. -/
def hexPrefixVal : List Char → ℕ → ℕ
  | [], acc => acc
  | c :: cs, acc =>
    match hexDigitVal? c with
    | some d => hexPrefixVal cs (16 * acc + d)
    | none => acc

/-- Test for a leading `0x`, as in `input.startsWith ("0x")`. -/
def isHexPrefixed : List Char → Bool
  | c1 :: c2 :: _ => c1 == '0' && c2 == 'x'
  | _ => false

/-- String-to-BigInt conversion of `CryptoUtils.poseidonHash` (crypto.ts
lines 85-100): a `0x` string is parsed as hex, falling back to
`BigInt (parseInt (input, 16) || 0)`, which never throws; a bare string
is tried as hex with an implicit `0x` prefix, then as a decimal numeral,
and `none` models the uncaught `BigInt` exception when both fail. -/
def strVal? (cs : List Char) : Option ℕ :=
  if isHexPrefixed cs then
    match hexVal? (cs.drop 2) with
    | some v => some v
    | none => some (hexPrefixVal (cs.drop 2) 0)
  else
    match hexVal? cs with
    | some v => some v
    | none => decVal? cs

/-- Conversion of one `poseidonHash` input to a big integer (crypto.ts
lines 84-108). -/
def toBigInt? : JsVal → Option ℕ
  | .num n => some n
  | .bn n => some n
  | .str s => strVal? s.data

/-- JavaScript `Array.map` with exception propagation: the first failing
conversion aborts the whole call. -/
def mapOption {α β : Type} (f : α → Option β) : List α → Option (List β)
  | [] => some []
  | a :: as =>
    match f a, mapOption f as with
    | some b, some bs => some (b :: bs)
    | _, _ => none

/-- Conversion stage of `CryptoUtils.poseidonHash`: every input is
converted with `toBigInt?` before the permutation is applied. -/
def poseidonInputs? (vs : List JsVal) : Option (List ℕ) :=
  mapOption toBigInt? vs

/-- Model of `CryptoUtils.poseidonHash` (crypto.ts lines 80-112):
converts the inputs and applies the external Poseidon permutation `H`. -/
def poseidonHash? (H : List ℕ → ℕ) (vs : List JsVal) : Option ℕ :=
  (poseidonInputs? vs).map H

/-- Model of `CryptoUtils.computeCommitment` (crypto.ts lines 140-143):
`Poseidon (amount, secret, index)` with `amount`, `index` numbers and
`secret` a string. -/
def computeCommitment? (H : List ℕ → ℕ) (amount : ℕ) (secret : String) (index : ℕ) : Option ℕ :=
  poseidonHash? H [.num amount, .str secret, .num index]

/-- Model of `CryptoUtils.computeNullifier` (crypto.ts lines 125-127):
`Poseidon (secret, commitment)` with both arguments strings. -/
def computeNullifier? (H : List ℕ → ℕ) (secret commitment : String) : Option ℕ :=
  poseidonHash? H [.str secret, .str commitment]

/-- BN254 scalar field modulus, `CryptoUtils.FIELD_MODULUS` (crypto.ts
line 29). -/
def FIELD_MODULUS : ℕ :=
  21888242871839275222246405745257275088548364400416034343698204186575808495617

/-- Hash-input tuple of the commitment-derivation context. -/
def commitmentInputs? (amount : ℕ) (secret : String) (index : ℕ) : Option (List ℕ) :=
  poseidonInputs? [.num amount, .str secret, .num index]

/-- Hash-input tuple of the nullifier-derivation context. -/
def nullifierInputs? (secret commitment : String) : Option (List ℕ) :=
  poseidonInputs? [.str secret, .str commitment]

/-- Hash-input tuple of the recipient-binding context, taken from the
withdrawal circuit's `recipientBinding = Poseidon(2)` component. -/
def bindingInputs (nullifier recipient : ℕ) : List ℕ :=
  [nullifier, recipient]

/-- The `left.startsWith ("0x") ? left : "0x" + left` normalization of
`MerkleTree.hashNodes` (merkle.ts lines 37-42). -/
def ensureHexPrefixed (s : String) : String :=
  if isHexPrefixed s.data then s else "0x" ++ s

/-- Hash-input tuple of the Merkle-node-hashing context
(`MerkleTree.hashNodes`, merkle.ts lines 37-42). -/
def nodeInputs? (left right : String) : Option (List ℕ) :=
  poseidonInputs? [.str (ensureHexPrefixed left), .str (ensureHexPrefixed right)]

/-- Hash-input tuple of the zero-sentinel context
(`MerkleTree.initializeZeroValue`, merkle.ts lines 28-32). -/
def zeroSentinelInputs? : Option (List ℕ) :=
  poseidonInputs? [.num 0, .num 0]

theorem mapOption_length {α β : Type} (f : α → Option β) :
    ∀ (as : List α) (bs : List β), mapOption f as = some bs → bs.length = as.length := by
  intro as
  induction as with
  | nil => intro bs h; simp [mapOption] at h; simp [← h]
  | cons a as ih =>
    intro bs h
    cases hfa : f a with
    | none => simp [mapOption, hfa] at h
    | some b =>
      cases hrec : mapOption f as with
      | none => simp [mapOption, hfa, hrec] at h
      | some bs' =>
        simp [mapOption, hfa, hrec] at h
        simp [← h, ih bs' hrec]

/-- C8: `computeCommitment (amount, secret, index)` is
`Poseidon (amount, secret, index)` and `computeNullifier (secret,
commitment)` is `Poseidon (secret, commitment)` — the permutation is
applied to exactly the converted input tuple in the declared order, so
both derivations are deterministic functions of their input tuples. -/
theorem computeCommitment_computeNullifier_spec
    (H : List ℕ → ℕ) (amount index : ℕ) (secret commitment : String) (sv cv : ℕ)
    (hs : toBigInt? (.str secret) = some sv)
    (hc : toBigInt? (.str commitment) = some cv) :
    computeCommitment? H amount secret index = some (H [amount, sv, index]) ∧
    computeNullifier? H secret commitment = some (H [sv, cv]) := by
  constructor <;>
    simp [computeCommitment?, computeNullifier?, poseidonHash?, poseidonInputs?,
      mapOption, toBigInt?, hs, hc] <;>
    simp [toBigInt?] at hs hc <;> simp [hs, hc, mapOption]

theorem computeCommitment_computeNullifier_spec_witness :
    toBigInt? (.str "0a") = some 10 ∧ toBigInt? (.str "0xff") = some 255 ∧
    computeCommitment? List.sum 7 "0a" 3 = some (List.sum [7, 10, 3]) ∧
    computeNullifier? List.sum "0a" "0xff" = some (List.sum [10, 255]) := by
  refine ⟨by decide, by decide, ?_, ?_⟩
  · exact (computeCommitment_computeNullifier_spec List.sum 7 3 "0a" "0xff" 10 255
      (by decide) (by decide)).1
  · exact (computeCommitment_computeNullifier_spec List.sum 7 3 "0a" "0xff" 10 255
      (by decide) (by decide)).2

/-- C3 counterexample: the nullifier-derivation context (secret "0",
commitment "0"), the zero-sentinel context, the Merkle-node context
(children "0x0", "0x0") and the recipient-binding context (nullifier 0,
recipient 0) all produce the identical hash-input tuple `[0, 0]` — the
arity-2 contexts of the scheme do coincide. -/
theorem hash_domain_tuples_coincide :
    nullifierInputs? "0" "0" = some [0, 0] ∧
    zeroSentinelInputs? = some [0, 0] ∧
    nodeInputs? "0x0" "0x0" = some [0, 0] ∧
    bindingInputs 0 0 = [0, 0] := by
  decide

/-- C3 amended: the commitment-derivation context (arity 3) never
produces the hash-input tuple of any arity-2 context (nullifier
derivation, recipient binding, Merkle-node hashing, zero sentinel); the
arity-2 contexts, however, are not separated from one another, as the
final conjunct exhibits with the shared tuple `[0, 0]`. -/
theorem hash_domain_separation_arity
    (amount index : ℕ) (secret : String) (ts : List ℕ)
    (hc : commitmentInputs? amount secret index = some ts) :
    (∀ s c ts', nullifierInputs? s c = some ts' → ts ≠ ts') ∧
    (∀ n r, ts ≠ bindingInputs n r) ∧
    (∀ l r ts', nodeInputs? l r = some ts' → ts ≠ ts') ∧
    (∀ ts', zeroSentinelInputs? = some ts' → ts ≠ ts') ∧
    nullifierInputs? "0" "0" = zeroSentinelInputs? := by
  have hlen : ts.length = 3 := mapOption_length toBigInt? _ ts hc
  refine ⟨?_, ?_, ?_, ?_, by decide⟩
  · intro s c ts' h he
    have : ts'.length = 2 := mapOption_length toBigInt? _ ts' h
    rw [he] at hlen; omega
  · intro n r he
    rw [he] at hlen; simp [bindingInputs] at hlen
  · intro l r ts' h he
    have : ts'.length = 2 := mapOption_length toBigInt? _ ts' h
    rw [he] at hlen; omega
  · intro ts' h he
    have : ts'.length = 2 := mapOption_length toBigInt? _ ts' h
    rw [he] at hlen; omega

theorem hash_domain_separation_arity_witness :
    commitmentInputs? 1 "02" 3 = some [1, 2, 3] ∧ [1, 2, 3] ≠ bindingInputs 4 5 :=
  ⟨by decide, (hash_domain_separation_arity 1 3 "02" [1, 2, 3] (by decide)).2.1 4 5⟩

/-- Model of the market id produced by `ProofSightSDK.createMarket`
(sdk.ts line 77): the string "market_" followed by the decimal digits of
`Date.now ()`. -/
def createMarketId (t : ℕ) : String :=
  "market_" ++ Nat.repr t

/-- Model of the commitment computation of `ProofSightSDK.createPosition`
(sdk.ts lines 99-103): `poseidonHash ([amount, secret, marketId])`; a
conversion exception makes `createPosition` throw, modeled as `none`. -/
def createPositionCommitment? (H : List ℕ → ℕ) (amount : ℕ) (secret marketId : String) :
    Option ℕ :=
  poseidonHash? H [.num amount, .str secret, .str marketId]

theorem foldl_hexStep_none : ∀ cs : List Char, cs.foldl hexStep none = none
  | [] => rfl
  | _ :: cs => foldl_hexStep_none cs

theorem foldl_decStep_none : ∀ cs : List Char, cs.foldl decStep none = none
  | [] => rfl
  | _ :: cs => foldl_decStep_none cs

/-- A market id produced by `createMarket` begins with the letter `m`,
which is neither a hexadecimal nor a decimal digit, so both `BigInt`
conversion attempts inside `poseidonHash` fail. -/
theorem toBigInt_marketPrefix_eq_none (suffix : String) :
    toBigInt? (.str ("market_" ++ suffix)) = none := by
  have hdata : ("market_" ++ suffix).data
      = 'm' :: 'a' :: 'r' :: 'k' :: 'e' :: 't' :: '_' :: suffix.data := rfl
  rw [toBigInt?, hdata, strVal?]
  have hpre : isHexPrefixed ('m' :: 'a' :: 'r' :: 'k' :: 'e' :: 't' :: '_' :: suffix.data)
      = false := by
    simp [isHexPrefixed]
  rw [hpre]
  simp only [Bool.false_eq_true, if_false]
  have hhex : hexVal? ('m' :: 'a' :: 'r' :: 'k' :: 'e' :: 't' :: '_' :: suffix.data) = none := by
    rw [hexVal?]
    show List.foldl hexStep (hexStep (some 0) 'm') _ = none
    have : hexStep (some 0) 'm' = none := by decide
    rw [this]
    exact foldl_hexStep_none _
  rw [hhex]
  show decVal? _ = none
  rw [decVal?]
  show List.foldl decStep (decStep (some 0) 'm') _ = none
  have : decStep (some 0) 'm' = none := by decide
  rw [this]
  exact foldl_decStep_none _

/-- C10: calling `createPosition` with the id of any market returned by
`createMarket` (the string "market_" followed by the decimal digits of
the creation time) throws: `poseidonHash` converts each string with
`BigInt`, and such an id is neither valid hexadecimal after
`0x`-prefixing nor a decimal numeral, so both conversions fail before
any hash is computed. -/
theorem createPosition_market_id_throws
    (H : List ℕ → ℕ) (amount t : ℕ) (secret : String) :
    toBigInt? (.str (createMarketId t)) = none ∧
    createPositionCommitment? H amount secret (createMarketId t) = none := by
  have hid : toBigInt? (.str (createMarketId t)) = none :=
    toBigInt_marketPrefix_eq_none (Nat.repr t)
  refine ⟨hid, ?_⟩
  rw [createPositionCommitment?, poseidonHash?, poseidonInputs?]
  cases hsec : toBigInt? (.str secret) with
  | none => simp [mapOption, hsec]
  | some sv => simp [mapOption, hsec, hid]

namespace MerkleTree

/-- Zero leaf value `Poseidon (0, 0)` for node hash `H`
(`MerkleTree.initializeZeroValue`, merkle.ts lines 28-32). -/
def zeroValue (H : ℕ → ℕ → ℕ) : ℕ :=
  H 0 0

/-- The empty leaf map of a fresh tree. -/
def emptyLeaves : ℕ → Option ℕ :=
  fun _ => none

/-- Model of `MerkleTree.insert` (merkle.ts lines 47-52): sets the leaf
at `index`; the invalidated node cache is only a cache and is not
modeled. -/
def insertLeaf (leaves : ℕ → Option ℕ) (index commitment : ℕ) : ℕ → Option ℕ :=
  fun j => if j = index then some commitment else leaves j

/-- Model of `MerkleTree.getNode` (merkle.ts lines 57-80): a level-0 node
is the stored leaf or the zero value, an internal node hashes its two
children. -/
def getNode (H : ℕ → ℕ → ℕ) (leaves : ℕ → Option ℕ) : ℕ → ℕ → ℕ
  | 0, index => (leaves index).getD (zeroValue H)
  | level + 1, index =>
    H (getNode H leaves level (2 * index)) (getNode H leaves level (2 * index + 1))

/-- Model of `MerkleTree.getRoot` (merkle.ts lines 85-88). -/
def getRoot (H : ℕ → ℕ → ℕ) (leaves : ℕ → Option ℕ) (levels : ℕ) : ℕ :=
  getNode H leaves levels 0

/-- The loop of `MerkleTree.generatePath` (merkle.ts lines 94-111),
recursing over the remaining levels with the current index. -/
def generatePathFrom (H : ℕ → ℕ → ℕ) (leaves : ℕ → Option ℕ) :
    ℕ → ℕ → ℕ → List ℕ × List ℕ
  | _, _, 0 => ([], [])
  | level, cur, r + 1 =>
    let sibling := if cur % 2 = 0 then cur + 1 else cur - 1
    let rest := generatePathFrom H leaves (level + 1) (cur / 2) r
    (getNode H leaves level sibling :: rest.1, cur % 2 :: rest.2)

/-- Model of `MerkleTree.generatePath`: sibling hashes and LSB-first
direction bits for a leaf index. -/
def generatePath (H : ℕ → ℕ → ℕ) (leaves : ℕ → Option ℕ) (levels index : ℕ) :
    List ℕ × List ℕ :=
  generatePathFrom H leaves 0 index levels

/-- One step of the loop of `MerkleTree.verifyPath` (merkle.ts lines
126-135): direction bit `1` hashes the sibling on the left. -/
def stepHash (H : ℕ → ℕ → ℕ) (cur sibling bit : ℕ) : ℕ :=
  if bit = 1 then H sibling cur else H cur sibling

/-- Root recomputation of `MerkleTree.verifyPath`; a missing direction
bit behaves like `undefined !== 1` in the source, i.e. as `0`. -/
def computeRootFrom (H : ℕ → ℕ → ℕ) : ℕ → List ℕ → List ℕ → ℕ
  | cur, [], _ => cur
  | cur, e :: es, bits => computeRootFrom H (stepHash H cur e (bits.headD 0)) es bits.tail

/-- Model of `MerkleTree.verifyPath` (merkle.ts lines 116-138). -/
def verifyPath (H : ℕ → ℕ → ℕ) (leaf : ℕ) (pathElements pathIndices : List ℕ)
    (root : ℕ) : Bool :=
  computeRootFrom H leaf pathElements pathIndices == root

/-- Specification-side definition of the zero-sentinel chain, following
the spec's words: `Z 0 = H (0, 0)` and `Z (i+1) = H (Z i) (Z i)`. -/
def zeroChain (H : ℕ → ℕ → ℕ) : ℕ → ℕ
  | 0 => H 0 0
  | i + 1 => H (zeroChain H i) (zeroChain H i)

theorem empty_getNode (H : ℕ → ℕ → ℕ) :
    ∀ level index, getNode H emptyLeaves level index = zeroChain H level := by
  intro level
  induction level with
  | zero => intro i; rfl
  | succ l ih => intro i; rw [getNode, ih, ih]; rfl

/-- C9: the root of an empty depth-32 tree equals the 32-fold recursive
self-hash of the zero sentinel `H (0, 0)`, for every node hash `H`. -/
theorem empty_tree_root (H : ℕ → ℕ → ℕ) :
    getRoot H emptyLeaves 32 = zeroChain H 32 :=
  empty_getNode H 32 0

theorem computeRootFrom_generatePathFrom (H : ℕ → ℕ → ℕ) (leaves : ℕ → Option ℕ) :
    ∀ (r level cur : ℕ),
      computeRootFrom H (getNode H leaves level cur)
        (generatePathFrom H leaves level cur r).1
        (generatePathFrom H leaves level cur r).2
      = getNode H leaves (level + r) (cur / 2 ^ r) := by
  intro r
  induction r with
  | zero =>
    intro level cur
    simp [generatePathFrom, computeRootFrom]
  | succ r ih =>
    intro level cur
    have hstep : stepHash H (getNode H leaves level cur)
        (getNode H leaves level (if cur % 2 = 0 then cur + 1 else cur - 1)) (cur % 2)
        = getNode H leaves (level + 1) (cur / 2) := by
      rcases Nat.mod_two_eq_zero_or_one cur with h | h
      · have h2 : 2 * (cur / 2) = cur := by omega
        rw [getNode, h2, h]
        simp [stepHash]
      · have h2 : 2 * (cur / 2) = cur - 1 := by omega
        have h3 : cur - 1 + 1 = cur := by omega
        rw [getNode, h2, h3, h]
        simp [stepHash]
    calc computeRootFrom H (getNode H leaves level cur)
          (generatePathFrom H leaves level cur (r + 1)).1
          (generatePathFrom H leaves level cur (r + 1)).2
        = computeRootFrom H (getNode H leaves (level + 1) (cur / 2))
            (generatePathFrom H leaves (level + 1) (cur / 2) r).1
            (generatePathFrom H leaves (level + 1) (cur / 2) r).2 := by
          rw [generatePathFrom]
          simp only [computeRootFrom, List.headD, List.tail]
          rw [hstep]
      _ = getNode H leaves (level + 1 + r) (cur / 2 / 2 ^ r) := ih (level + 1) (cur / 2)
      _ = getNode H leaves (level + (r + 1)) (cur / 2 ^ (r + 1)) := by
          have ha : level + 1 + r = level + (r + 1) := by omega
          have hb : cur / 2 / 2 ^ r = cur / 2 ^ (r + 1) := by
            rw [Nat.div_div_eq_div_mul, ← pow_succ']
          rw [ha, hb]

/-- Leaves after inserting `commitments i` at index `i` for
`i = 0, …, 9`, in order, via `MerkleTree.insert`. -/
def leavesAfterTen (commitments : ℕ → ℕ) : ℕ → Option ℕ :=
  (List.range 10).foldl (fun lv i => insertLeaf lv i (commitments i)) emptyLeaves

theorem leavesAfterTen_lookup (commitments : ℕ → ℕ) (i : ℕ) (hi : i < 10) :
    leavesAfterTen commitments i = some (commitments i) := by
  interval_cases i <;> rfl

/-- C6: after inserting ten commitments at indices 0..9 sequentially into
a depth-32 tree, `generatePath i` followed by `verifyPath` of commitment
`i` against `getRoot` returns `true` for each `i < 10`, for every node
hash `H`. -/
theorem insert_generatePath_verifyPath_roundtrip
    (H : ℕ → ℕ → ℕ) (commitments : ℕ → ℕ) (i : ℕ) (hi : i < 10) :
    verifyPath H (commitments i)
      (generatePath H (leavesAfterTen commitments) 32 i).1
      (generatePath H (leavesAfterTen commitments) 32 i).2
      (getRoot H (leavesAfterTen commitments) 32) = true := by
  have hleaf : getNode H (leavesAfterTen commitments) 0 i = commitments i := by
    rw [getNode, leavesAfterTen_lookup commitments i hi]
    rfl
  have hchain := computeRootFrom_generatePathFrom H (leavesAfterTen commitments) 32 0 i
  rw [hleaf] at hchain
  have hdiv : i / 2 ^ 32 = 0 := Nat.div_eq_of_lt (lt_trans hi (by norm_num))
  rw [hdiv] at hchain
  simp only [generatePath, verifyPath, getRoot, hchain, Nat.zero_add]
  exact beq_self_eq_true _

theorem insert_generatePath_verifyPath_roundtrip_witness :
    3 < 10 ∧
    verifyPath Nat.pair ((fun j => j + 1) 3)
      (generatePath Nat.pair (leavesAfterTen (fun j => j + 1)) 32 3).1
      (generatePath Nat.pair (leavesAfterTen (fun j => j + 1)) 32 3).2
      (getRoot Nat.pair (leavesAfterTen (fun j => j + 1)) 32) = true :=
  ⟨by decide, insert_generatePath_verifyPath_roundtrip Nat.pair (fun j => j + 1) 3 (by decide)⟩

/-- Accumulated hash value just before step `j` of `verifyPath`'s loop. -/
def accAt (H : ℕ → ℕ → ℕ) : ℕ → List ℕ → List ℕ → ℕ → ℕ
  | leaf, _, _, 0 => leaf
  | leaf, [], _, _ + 1 => leaf
  | leaf, e :: es, bits, j + 1 => accAt H (stepHash H leaf e (bits.headD 0)) es bits.tail j

/-- Flip of the direction bit at position `j`: a non-`1` entry behaves as
`0` inside `verifyPath`, so flipping sends `1` to `0` and anything else
to `1`. -/
def flipBit (bits : List ℕ) (j : ℕ) : List ℕ :=
  bits.set j (if bits.getD j 0 = 1 then 0 else 1)

/-- Hash functions injective on pairs — the idealized contract the spec
assumes of the SNARK-friendly permutation. -/
def PairInjective (H : ℕ → ℕ → ℕ) : Prop :=
  ∀ a b a' b', H a b = H a' b' → a = a' ∧ b = b'

theorem computeRootFrom_ne (H : ℕ → ℕ → ℕ) (hinj : PairInjective H) :
    ∀ (es bits : List ℕ) (c c' : ℕ), c ≠ c' →
      computeRootFrom H c es bits ≠ computeRootFrom H c' es bits := by
  intro es
  induction es with
  | nil => intro bits c c' hne; simpa [computeRootFrom] using hne
  | cons e es ih =>
    intro bits c c' hne
    have hstep : stepHash H c e (bits.headD 0) ≠ stepHash H c' e (bits.headD 0) := by
      rw [stepHash, stepHash]
      split
      · intro h; exact hne (hinj _ _ _ _ h).2
      · intro h; exact hne (hinj _ _ _ _ h).1
    simpa [computeRootFrom] using ih bits.tail _ _ hstep

theorem computeRootFrom_set_ne (H : ℕ → ℕ → ℕ) (hinj : PairInjective H) :
    ∀ (es bits : List ℕ) (leaf j s' : ℕ), j < es.length → s' ≠ es.getD j 0 →
      computeRootFrom H leaf (es.set j s') bits ≠ computeRootFrom H leaf es bits := by
  intro es
  induction es with
  | nil => intro bits leaf j s' hj; simp at hj
  | cons e es ih =>
    intro bits leaf j s' hj hs
    cases j with
    | zero =>
      rw [List.set_cons_zero]
      simp only [List.getD_cons_zero] at hs
      have hstep : stepHash H leaf s' (bits.headD 0) ≠ stepHash H leaf e (bits.headD 0) := by
        rw [stepHash, stepHash]
        split
        · intro h; exact hs (hinj _ _ _ _ h).1
        · intro h; exact hs (hinj _ _ _ _ h).2
      simpa [computeRootFrom] using computeRootFrom_ne H hinj es bits.tail _ _ hstep
    | succ j =>
      rw [List.set_cons_succ]
      simp only [List.getD_cons_succ] at hs
      simp only [List.length_cons, Nat.succ_lt_succ_iff] at hj
      simpa [computeRootFrom] using
        ih bits.tail (stepHash H leaf e (bits.headD 0)) j s' hj hs

theorem computeRootFrom_flipBit_ne (H : ℕ → ℕ → ℕ) (hinj : PairInjective H) :
    ∀ (es bits : List ℕ) (leaf j : ℕ), j < es.length → j < bits.length →
      accAt H leaf es bits j ≠ es.getD j 0 →
      computeRootFrom H leaf es (flipBit bits j) ≠ computeRootFrom H leaf es bits := by
  intro es
  induction es with
  | nil => intro bits leaf j hj; simp at hj
  | cons e es ih =>
    intro bits leaf j hj hjb hacc
    cases bits with
    | nil => simp at hjb
    | cons b bs =>
      cases j with
      | zero =>
        simp only [accAt] at hacc
        simp only [List.getD_cons_zero] at hacc
        rw [flipBit]
        simp only [List.getD_cons_zero, List.set_cons_zero]
        have hstep : stepHash H leaf e (if b = 1 then 0 else 1) ≠ stepHash H leaf e b := by
          rw [stepHash, stepHash]
          by_cases hb : b = 1
          · simp only [hb, if_pos, if_neg, reduceIte]
            intro h
            exact hacc (hinj _ _ _ _ h).1
          · simp only [if_neg hb, reduceIte]
            intro h
            exact hacc (hinj _ _ _ _ h).2
        simpa [computeRootFrom] using computeRootFrom_ne H hinj es bs _ _ hstep
      | succ j =>
        simp only [accAt, List.headD, List.tail] at hacc
        simp only [List.getD_cons_succ] at hacc
        simp only [List.length_cons, Nat.succ_lt_succ_iff] at hj hjb
        have hflip : flipBit (b :: bs) (j + 1) = b :: flipBit bs j := by
          rw [flipBit, flipBit, List.getD_cons_succ, List.set_cons_succ]
        rw [hflip]
        simpa [computeRootFrom] using
          ih bs (stepHash H leaf e b) j hj hjb (by simpa using hacc)

/-- C7 amended: under the spec's idealized injectivity contract for the
node hash, changing any single sibling hash makes `verifyPath` return
`false` for the same leaf and root; flipping the direction bit at
position `j` makes it return `false` provided the sibling at `j` differs
from the accumulated hash value there — when the two are equal, both
orientations hash the same pair and the flipped witness still verifies
(see the counterexample). -/
theorem verifyPath_tamper
    (H : ℕ → ℕ → ℕ) (hinj : PairInjective H)
    (leaf : ℕ) (pathElements pathIndices : List ℕ) (root : ℕ)
    (hok : verifyPath H leaf pathElements pathIndices root = true) :
    (∀ j s', j < pathElements.length → s' ≠ pathElements.getD j 0 →
       verifyPath H leaf (pathElements.set j s') pathIndices root = false) ∧
    (∀ j, j < pathElements.length → j < pathIndices.length →
       accAt H leaf pathElements pathIndices j ≠ pathElements.getD j 0 →
       verifyPath H leaf pathElements (flipBit pathIndices j) root = false) := by
  rw [verifyPath, beq_iff_eq] at hok
  constructor
  · intro j s' hj hs
    rw [verifyPath, beq_eq_false_iff_ne, hok.symm]
    exact computeRootFrom_set_ne H hinj pathElements pathIndices leaf j s' hj hs
  · intro j hj hjb hacc
    rw [verifyPath, beq_eq_false_iff_ne, hok.symm]
    exact computeRootFrom_flipBit_ne H hinj pathElements pathIndices leaf j hj hjb hacc

/-- C7 counterexample: a concrete valid path (node hash `Nat.pair`) that
remains valid after flipping its only direction bit — the sibling equals
the accumulated value, so both orientations hash the same pair. -/
theorem verifyPath_flip_bit_still_true :
    verifyPath Nat.pair 0 [0] [0] (Nat.pair 0 0) = true ∧
    verifyPath Nat.pair 0 [0] (flipBit [0] 0) (Nat.pair 0 0) = true := by
  decide

theorem pairInjective_natPair : PairInjective Nat.pair :=
  fun _ _ _ _ h => Nat.pair_eq_pair.mp h

theorem verifyPath_tamper_witness :
    verifyPath Nat.pair 1 ([2].set 0 3) [0] (Nat.pair 1 2) = false ∧
    verifyPath Nat.pair 1 [2] (flipBit [0] 0) (Nat.pair 1 2) = false := by
  have h := verifyPath_tamper Nat.pair pairInjective_natPair 1 [2] [0] (Nat.pair 1 2)
    (by decide)
  exact ⟨h.1 0 3 (by decide) (by decide), h.2 0 (by decide) (by decide) (by decide)⟩

end MerkleTree

namespace PositionUpdateCircuit

/-- Old constant product `k_old = pool_token_a * pool_token_b`
(position_update.circom).  The circuit's 64-bit range checks keep every
signal below the BN254 modulus, so its field arithmetic coincides with
the integer arithmetic used here on in-range assignments. -/
def kOld (poolA poolB : ℤ) : ℤ :=
  poolA * poolB

/-- New constant product `k_new = new_pool_token_a * new_pool_token_b`. -/
def kNew (newPoolA newPoolB : ℤ) : ℤ :=
  newPoolA * newPoolB

/-- Squared residual of the buy-A branch: the exact product condition
`new_pool_a * (pool_b + amount_in) = k_old` and the pool condition
`new_pool_b = pool_b + amount_in` (signals `buy_a_k_match`,
`buy_a_pool_match`, `buy_a_constraint`). -/
def buyAConstraint (poolA poolB newPoolA newPoolB amountIn : ℤ) : ℤ :=
  (newPoolA * (poolB + amountIn) - kOld poolA poolB) ^ 2
    + (newPoolB - (poolB + amountIn)) ^ 2

/-- Squared residual of the buy-B branch (signals `buy_b_k_match`,
`buy_b_pool_match`, `buy_b_constraint`). -/
def buyBConstraint (poolA poolB newPoolA newPoolB amountIn : ℤ) : ℤ :=
  ((poolA + amountIn) * newPoolB - kOld poolA poolB) ^ 2
    + (newPoolA - (poolA + amountIn)) ^ 2

/-- Output-amount signal selected by the trade direction:
`amount_out = is_buy_a * (pool_a - new_pool_a) + (1 - is_buy_a) *
(pool_b - new_pool_b)`. -/
def amountOut (poolA poolB newPoolA newPoolB isBuyA : ℤ) : ℤ :=
  isBuyA * (poolA - newPoolA) + (1 - isBuyA) * (poolB - newPoolB)

/-- Satisfaction predicate of the position-update circuit
(position_update.circom): 64-bit range checks on `amount_in`,
`pool_token_a` and `pool_token_b`; booleanity of `is_buy_a`; the product
non-decrease check `k_new ≥ k_old`; the selector equation
`is_buy_a * buy_a_constraint + (1 - is_buy_a) * buy_b_constraint = 0`;
the slippage bound; and the non-zero checks on both new pools.
`market_id`, `user_secret` and `position_commitment` feed only the
authorization hash, which constrains nothing (spec §9), so they are
omitted from the predicate. -/
def satisfied (poolA poolB newPoolA newPoolB amountIn isBuyA minAmountOut : ℤ) : Prop :=
  (0 ≤ amountIn ∧ amountIn < 2 ^ 64) ∧
  (0 ≤ poolA ∧ poolA < 2 ^ 64) ∧
  (0 ≤ poolB ∧ poolB < 2 ^ 64) ∧
  (isBuyA = 0 ∨ isBuyA = 1) ∧
  kOld poolA poolB ≤ kNew newPoolA newPoolB ∧
  isBuyA * buyAConstraint poolA poolB newPoolA newPoolB amountIn
    + (1 - isBuyA) * buyBConstraint poolA poolB newPoolA newPoolB amountIn = 0 ∧
  minAmountOut ≤ amountOut poolA poolB newPoolA newPoolB isBuyA ∧
  newPoolA ≠ 0 ∧ newPoolB ≠ 0

/-- C1 counterexample: in the pinned scenario (poolA = poolB = 10^9,
amountIn = 10^8, isBuyA = 1) the candidate state newPoolB = 1100000000,
newPoolA = 909090909 has `newPoolA * newPoolB < poolA * poolB`, so the
invariant asserted by the claim is violated, and the circuit rejects the
assignment instead of accepting it. -/
theorem pinned_trade_state_rejected :
    kNew 909090909 1100000000 < kOld 1000000000 1000000000 ∧
    ¬ satisfied 1000000000 1000000000 909090909 1100000000 100000000 1 80000000 := by
  constructor
  · decide
  · intro h
    have := h.2.2.2.2.1
    rw [kOld, kNew] at this
    omega

/-- C1 corrected: with poolA = poolB = 10^9, amountIn = 10^8, isBuyA = 1,
truncating division yields newPoolB = poolB + amountIn = 1100000000 and
newPoolA = (poolA * poolB) / newPoolB = 909090909; that state violates
the invariant `newPoolA * newPoolB ≥ poolA * poolB` and the
position-update circuit rejects it (the product-non-decrease check
fails); moreover a state with newPoolA = 0 is rejected regardless of
every other value. -/
theorem pinned_trade_truncation_and_rejection :
    (1000000000 * 1000000000 : ℤ) / (1000000000 + 100000000) = 909090909 ∧
    kNew 909090909 1100000000 < kOld 1000000000 1000000000 ∧
    ¬ satisfied 1000000000 1000000000 909090909 1100000000 100000000 1 80000000 ∧
    (∀ poolA poolB newPoolB amountIn isBuyA minAmountOut : ℤ,
       ¬ satisfied poolA poolB 0 newPoolB amountIn isBuyA minAmountOut) := by
  refine ⟨by decide, by decide, ?_, ?_⟩
  · intro h
    have := h.2.2.2.2.1
    rw [kOld, kNew] at this
    omega
  · intro poolA poolB newPoolB amountIn isBuyA minAmountOut h
    exact h.2.2.2.2.2.2.2.1 rfl

end PositionUpdateCircuit

namespace WithdrawalCircuit

/-- Packed leaf index `indexVal = Σ pathIndices[i] * 2^i`
(withdrawal.circom), LSB first. -/
def packIndex : List ℕ → ℕ
  | [] => 0
  | b :: bs => b + 2 * packIndex bs

/-- Commitment signal `Poseidon (amount, secret, indexVal)`
(withdrawal.circom, commHasher). -/
def commitment (H : List ℕ → ℕ) (amount secret : ℕ) (pathIndices : List ℕ) : ℕ :=
  H [amount, secret, packIndex pathIndices]

/-- Computed nullifier signal `Poseidon (secret, commitment)`
(withdrawal.circom, nullifierGen). -/
def computedNullifier (H : List ℕ → ℕ) (amount secret : ℕ) (pathIndices : List ℕ) : ℕ :=
  H [secret, commitment H amount secret pathIndices]

/-- Bound nullifier signal `Poseidon (computedNullifier, recipient)`
(withdrawal.circom, recipientBinding). -/
def boundNullifier (H : List ℕ → ℕ) (amount secret : ℕ) (pathIndices : List ℕ)
    (recipient : ℕ) : ℕ :=
  H [computedNullifier H amount secret pathIndices, recipient]

/-- Satisfaction predicate of the withdrawal circuit for depth 32:
booleanity of the direction bits (DualMux), the nullifier match, the
Merkle membership equation (same fold as `MerkleTree.verifyPath`), the
non-zero recipient check, and the 64-bit range check on `amount`.  The
bound nullifier is computed but not otherwise constrained inside the
circuit; its check happens on-chain. -/
def satisfiedW (H : List ℕ → ℕ) (root nullifierHash recipient secret amount : ℕ)
    (pathElements pathIndices : List ℕ) : Prop :=
  pathElements.length = 32 ∧ pathIndices.length = 32 ∧
  (∀ b ∈ pathIndices, b = 0 ∨ b = 1) ∧
  nullifierHash = computedNullifier H amount secret pathIndices ∧
  MerkleTree.computeRootFrom (fun a b => H [a, b])
    (commitment H amount secret pathIndices) pathElements pathIndices = root ∧
  recipient ≠ 0 ∧
  amount < 2 ^ 64

/-- C4: the withdrawal circuit computes its bound-nullifier signal as
`H (nullifier, recipient)` from the computed nullifier, and under the
spec's injectivity contract for the hash, one fixed nullifier bound to
two distinct recipients yields two distinct bound nullifiers. -/
theorem boundNullifier_binds_recipient
    (H : List ℕ → ℕ)
    (hinj : ∀ a b a' b', H [a, b] = H [a', b'] → a = a' ∧ b = b')
    (amount secret : ℕ) (pathIndices : List ℕ) (r1 r2 : ℕ) (hr : r1 ≠ r2) :
    boundNullifier H amount secret pathIndices r1
      = H [computedNullifier H amount secret pathIndices, r1] ∧
    boundNullifier H amount secret pathIndices r1
      ≠ boundNullifier H amount secret pathIndices r2 :=
  ⟨rfl, fun h => hr (hinj _ _ _ _ h).2⟩

end WithdrawalCircuit

/-- Concrete stand-in hash for the witnesses: total on all input lists
and injective on two-element inputs. -/
def tagPairHash : List ℕ → ℕ
  | [a, b] => 2 * Nat.pair a b
  | [a, b, c] => 2 * Nat.pair a (Nat.pair b c) + 1
  | _ => 0

theorem tagPairHash_pairInj :
    ∀ a b a' b', tagPairHash [a, b] = tagPairHash [a', b'] → a = a' ∧ b = b' := by
  intro a b a' b' h
  simp only [tagPairHash] at h
  exact Nat.pair_eq_pair.mp (by omega)

theorem boundNullifier_binds_recipient_witness :
    (3 : ℕ) ≠ 4 ∧
    WithdrawalCircuit.boundNullifier tagPairHash 1 2 [] 3
      = tagPairHash [WithdrawalCircuit.computedNullifier tagPairHash 1 2 [], 3] ∧
    WithdrawalCircuit.boundNullifier tagPairHash 1 2 [] 3
      ≠ WithdrawalCircuit.boundNullifier tagPairHash 1 2 [] 4 := by
  have h := WithdrawalCircuit.boundNullifier_binds_recipient tagPairHash
    tagPairHash_pairInj 1 2 [] 3 4 (by decide)
  exact ⟨by decide, h.1, h.2⟩

/-- Model of `ProofSightSDK.deposit` (sdk.ts lines 40-68) acting on the
SDK's Merkle leaves: the secret is the externally drawn randomness, the
leaf index is the hardcoded `nextIndex = 0` of the source, and the
commitment is inserted there.  Returns the updated leaves and the
commitment; a conversion failure models a thrown exception. -/
def sdkDeposit (H : List ℕ → ℕ) (leaves : ℕ → Option ℕ) (amount : ℕ) (secret : String) :
    Option ((ℕ → Option ℕ) × ℕ) :=
  match computeCommitment? H amount secret 0 with
  | some c => some (MerkleTree.insertLeaf leaves 0 c, c)
  | none => none

/-- C5: evaluation at the failing input — `deposit` always uses leaf
index 0 (`const nextIndex = 0; // mock`, sdk.ts line 48), so a second
deposit overwrites the first commitment instead of occupying a fresh
leaf: after depositing with secrets "01" and then "02", the first
commitment is stored at no index of the tree. -/
theorem second_deposit_overwrites_first :
    ∃ leaves1 c1 leaves2 c2,
      sdkDeposit tagPairHash MerkleTree.emptyLeaves 5 "01" = some (leaves1, c1) ∧
      leaves1 0 = some c1 ∧
      sdkDeposit tagPairHash leaves1 5 "02" = some (leaves2, c2) ∧
      c1 ≠ c2 ∧ leaves2 0 = some c2 ∧ ∀ j, leaves2 j ≠ some c1 := by
  refine ⟨_, _, _, _, rfl, rfl, rfl, by decide, rfl, ?_⟩
  intro j
  simp only [MerkleTree.insertLeaf, MerkleTree.emptyLeaves]
  by_cases hj : j = 0
  · simp only [hj, if_pos rfl]
    decide
  · simp only [if_neg hj]
    decide

namespace ProofGenerator

/-- Opaque Groth16 proof triple `{ pi_a, pi_b, pi_c }`
(proof-generator.ts lines 14-21). -/
structure Groth16Proof where
  pi_a : List ℕ
  pi_b : List (List ℕ)
  pi_c : List ℕ
deriving DecidableEq

/-- Result of the external `snarkjs.groth16.fullProve` capability. -/
structure FullProveResult where
  proof : Groth16Proof
  publicSignals : List ℕ
deriving DecidableEq

/-- Result returned by `ProofGenerator.generateProof`: the proof plus
the public signals stringified in the prover's order. -/
structure ProofResult where
  proof : Groth16Proof
  publicSignals : List String
deriving DecidableEq

/-- Witness assignment passed to the prover (`ProofInputs`,
proof-generator.ts lines 10-12), with the values already numeric. -/
def ProofInputs : Type :=
  List (String × ℕ)

/-- Model of `ProofGenerator.generateProof` (proof-generator.ts lines
32-55): the inputs are handed unchanged to the injected
`snarkjs.groth16.fullProve` capability; on success the proof and the
stringified public signals are returned, and a prover exception is
rethrown wrapped as "Proof generation failed".  No check of any witness
value appears before the dispatch. -/
def generateProof
    (fullProve : ProofInputs → String → String → Except String FullProveResult)
    (wasmPath zkeyPath : String) (inputs : ProofInputs) : Except String ProofResult :=
  match fullProve inputs wasmPath zkeyPath with
  | .ok r => .ok ⟨r.proof, r.publicSignals.map (fun s => Nat.repr s)⟩
  | .error e => .error ("Proof generation failed: " ++ e)

/-- C2 counterexample: a witness whose single value equals the field
modulus — hence out of the proving field and of every 64-bit width — is
not rejected locally: a prover that accepts it makes `generateProof`
return success, and an erroring prover shows the external prover was
invoked on the out-of-range witness. -/
theorem generateProof_no_local_range_check :
    (∃ kv ∈ ([("amount_in", FIELD_MODULUS)] : ProofInputs), ¬ kv.2 < FIELD_MODULUS) ∧
    generateProof (fun _ _ _ => .ok ⟨⟨[], [], []⟩, []⟩) "c.wasm" "c.zkey"
      [("amount_in", FIELD_MODULUS)] = .ok ⟨⟨[], [], []⟩, []⟩ ∧
    generateProof (fun _ _ _ => .error "prover invoked") "c.wasm" "c.zkey"
      [("amount_in", FIELD_MODULUS)]
      = .error ("Proof generation failed: " ++ "prover invoked") := by
  refine ⟨⟨("amount_in", FIELD_MODULUS), ?_, ?_⟩, rfl, rfl⟩
  · exact List.mem_singleton.mpr rfl
  · exact Nat.lt_irrefl _

/-- C2 corrected: `generateProof` performs no witness validation of its
own — whatever the prover answers on the unmodified inputs is what the
caller sees: success is forwarded as success (public signals
stringified), and a prover error is rethrown wrapped as
"Proof generation failed". -/
theorem generateProof_forwards_prover_verbatim
    (fullProve : ProofInputs → String → String → Except String FullProveResult)
    (wasmPath zkeyPath : String) (inputs : ProofInputs) :
    (∀ r, fullProve inputs wasmPath zkeyPath = .ok r →
       generateProof fullProve wasmPath zkeyPath inputs
         = .ok ⟨r.proof, r.publicSignals.map (fun s => Nat.repr s)⟩) ∧
    (∀ e, fullProve inputs wasmPath zkeyPath = .error e →
       generateProof fullProve wasmPath zkeyPath inputs
         = .error ("Proof generation failed: " ++ e)) := by
  constructor
  · intro r hr
    rw [generateProof, hr]
  · intro e he
    rw [generateProof, he]

theorem generateProof_forwards_prover_verbatim_witness :
    generateProof (fun _ _ _ => .ok ⟨⟨[1], [[2]], [3]⟩, [4]⟩) "c.wasm" "c.zkey" []
      = .ok ⟨⟨[1], [[2]], [3]⟩, ["4"]⟩ :=
  (generateProof_forwards_prover_verbatim
    (fun _ _ _ => .ok ⟨⟨[1], [[2]], [3]⟩, [4]⟩) "c.wasm" "c.zkey" []).1
    ⟨⟨[1], [[2]], [3]⟩, [4]⟩ rfl

end ProofGenerator

end ProofSight
